import Mathlib

/-!
Verification of the opencode_telegram_bot instance-lifecycle and
event-routing layer.

JavaScript strings are modelled as `List Char` and the JS string
primitives used by the source (`split`, `trim`, truthiness, `length`,
regex sentence matching, path normalisation) are given explicit
executable definitions.  Effectful collaborators (the filesystem, the
network probe, process discovery, the backend prompt call) are passed in
as explicit parameters, so every operation of the source becomes a pure
state-transforming function.
-/

set_option maxHeartbeats 1000000

namespace OcBot

/-- JS strings, modelled as lists of characters. -/
abbrev Str := List Char

/-- Embed a Lean string literal as a JS string value. -/
def str (s : String) : Str := s.data

/-- JS whitespace test for `String.prototype.trim`. -/
def ws (c : Char) : Bool := c.isWhitespace

/-- JS `String.prototype.trim`: drop leading and trailing whitespace. -/
def jsTrim (s : Str) : Str := List.rdropWhile ws (List.dropWhile ws s)

/-- JS `String.prototype.startsWith`: `strStartsWith s pre` is true when
`pre` is a prefix of `s`. -/
def strStartsWith : Str → Str → Bool
  | _, [] => true
  | [], _ :: _ => false
  | c :: s, d :: rest => c == d && strStartsWith s rest

/-- JS `String.prototype.includes`: substring containment. -/
def strContains (s pat : Str) : Bool :=
  match s with
  | [] => strStartsWith [] pat
  | _ :: t => strStartsWith s pat || strContains t pat

/-- JS `String.prototype.split` with a non-empty string separator:
accumulates the current piece (reversed) and cuts at every occurrence of
the separator, leftmost first, non-overlapping.  The `fuel` counter only
drives structural recursion; any `fuel` at least the length of the
string gives the JS behaviour. -/
def splitSepAux (sep : Str) : Nat → Str → Str → List Str
  | _, [], acc => [acc.reverse]
  | 0, _ :: _, acc => [acc.reverse]
  | fuel + 1, c :: rest, acc =>
    if strStartsWith (c :: rest) sep then
      acc.reverse :: splitSepAux sep fuel (List.drop (sep.length - 1) rest) []
    else
      splitSepAux sep fuel rest (c :: acc)

/-- JS `s.split(sep)` for non-empty `sep`. -/
def splitSep (sep s : Str) : List Str := splitSepAux sep s.length s []

/-- Rejoin pieces with a separator (inverse of `splitSep`). -/
def joinSep (sep : Str) : List Str → Str
  | [] => []
  | [x] => x
  | x :: y :: rest => x ++ sep ++ joinSep sep (y :: rest)

/-- The blank-line paragraph separator used by `chunkMessage`. -/
def nlnl : Str := ['\n', '\n']

/-- Decimal rendering of a JS number (used for template literals). -/
def natToStr (n : Nat) : Str := Nat.toDigits 10 n

/-- Sentence terminator characters of the regex `[^.!?]+[.!?]+`. -/
def isTerm (c : Char) : Bool := c == '.' || c == '!' || c == '?'

/-- Global matching of `/[^.!?]+[.!?]+/g`: each match is a maximal run of
non-terminator characters followed by a maximal run of terminators;
unmatched leading terminators and an unterminated tail are skipped.  The
`fuel` counter only drives structural recursion; any `fuel` at least the
length of the string gives the JS behaviour. -/
def sentenceSplitAux : Nat → Str → List Str
  | 0, _ => []
  | fuel + 1, s =>
    let s1 := s.dropWhile isTerm
    let body := s1.takeWhile (fun c => !isTerm c)
    let rest1 := s1.dropWhile (fun c => !isTerm c)
    let punct := rest1.takeWhile isTerm
    let rest2 := rest1.dropWhile isTerm
    if punct = [] then []
    else (body ++ punct) :: sentenceSplitAux fuel rest2

/-- JS `paragraph.match(/[^.!?]+[.!?]+/g) || [paragraph]`. -/
def sentencesOf (p : Str) : List Str :=
  match sentenceSplitAux p.length p with
  | [] => [p]
  | l => l

/-- Inner loop of `chunkMessage` over the sentences of an over-long
paragraph; state is `(chunks, currentChunk)`. -/
def sentenceLoop (maxLength : Nat) : List Str → List Str × Str → List Str × Str
  | [], st => st
  | s :: rest, (chunks, cur) =>
    if maxLength < cur.length + s.length then
      sentenceLoop maxLength rest
        ((if jsTrim cur ≠ [] then chunks ++ [jsTrim cur] else chunks), s)
    else
      sentenceLoop maxLength rest (chunks, cur ++ s)

/-- Outer loop of `chunkMessage` over blank-line-separated paragraphs;
state is `(chunks, currentChunk)`. -/
def paraLoop (maxLength : Nat) : List Str → List Str × Str → List Str × Str
  | [], st => st
  | p :: rest, (chunks, cur) =>
    if maxLength < cur.length + p.length + 2 then
      let st1 := if jsTrim cur ≠ [] then (chunks ++ [jsTrim cur], ([] : Str)) else (chunks, cur)
      if maxLength < p.length then
        paraLoop maxLength rest (sentenceLoop maxLength (sentencesOf p) st1)
      else
        paraLoop maxLength rest (st1.1, p)
    else
      paraLoop maxLength rest (chunks, cur ++ (if cur = [] then [] else nlnl) ++ p)

/-- Final `if (currentChunk.trim()) chunks.push(currentChunk.trim())` of
`chunkMessage`. -/
def flushChunks (st : List Str × Str) : List Str :=
  if jsTrim st.2 ≠ [] then st.1 ++ [jsTrim st.2] else st.1

/-- Embedding of `chunkMessage` (src/services/session-manager.ts):
split a long text on blank-line paragraphs, greedily pack them, and
split an over-long paragraph on sentence boundaries. -/
def chunkMessage (text : Str) (maxLength : Nat) : List Str :=
  if text.length ≤ maxLength then [text]
  else
    let paragraphs := splitSep nlnl text
    flushChunks (paraLoop maxLength paragraphs ([], []))

/-! ### MessageService: delta buffering and event routing -/

/-- The `config.bot` values consumed by `MessageService`. -/
structure BotConfig where
  maxMessageLength : Nat
  messageChunkSize : Nat
deriving DecidableEq

/-- Default `config.bot` values (config/index.ts zod schema defaults). -/
def defaultBotConfig : BotConfig := { maxMessageLength := 4000, messageChunkSize := 3500 }

/-- The in-memory `messageBuffers: Map<string, string>`. -/
def Buffers := Str → Option Str

/-- JS `Map.prototype.get`. -/
def bufGet (m : Buffers) (k : Str) : Option Str := m k

/-- JS `Map.prototype.set`. -/
def bufSet (m : Buffers) (k v : Str) : Buffers :=
  fun x => if x == k then some v else m x

/-- JS `Map.prototype.delete`. -/
def bufDelete (m : Buffers) (k : Str) : Buffers :=
  fun x => if x == k then none else m x

/-- An empty `Map`. -/
def bufEmpty : Buffers := fun _ => none

/-- Embedding of `MessageService.getBufferKey`. -/
def getBufferKey (userId : Nat) (instanceId : Str) : Str :=
  str "buffer:" ++ instanceId ++ [':'] ++ natToStr userId

/-- List of `(userId, text)` pairs handed to the Telegram send API. -/
abbrev Sends := List (Nat × Str)

/-- Embedding of `MessageService.sendMessageToUser`: the text is chunked
by `chunkMessage` with `config.bot.maxMessageLength` and each chunk is
sent to the user. -/
def sendMessageToUser (cfg : BotConfig) (userId : Nat) (text : Str) : Sends :=
  (chunkMessage text cfg.maxMessageLength).map (fun c => (userId, c))

/-- The fields of `message.part.updated` properties used by the service:
`properties.part.type`, `properties.part.sessionID` and the optional
`properties.delta` (`none` models an absent field). -/
structure PartProps where
  partSessionID : Str
  partType : Str
  delta : Option Str
deriving DecidableEq

/-- JS truthiness of `delta` (absent or empty string is falsy). -/
def deltaTruthy : Option Str → Bool
  | none => false
  | some d => !d.isEmpty

/-- Embedding of `MessageService.handleMessagePart`: on a text part with
truthy delta, append to the `(userId, instanceId)` buffer and flush it
when it reaches `config.bot.messageChunkSize`. -/
def handleMessagePart (cfg : BotConfig) (props : PartProps) (userId : Nat)
    (instanceId : Str) (bufs : Buffers) : Buffers × Sends :=
  if props.partType == str "text" && deltaTruthy props.delta then
    let bufferKey := getBufferKey userId instanceId
    let buffer := (bufGet bufs bufferKey).getD [] ++ props.delta.getD []
    let bufs1 := bufSet bufs bufferKey buffer
    if cfg.messageChunkSize ≤ buffer.length then
      (bufSet bufs1 bufferKey [], sendMessageToUser cfg userId buffer)
    else
      (bufs1, [])
  else
    (bufs, [])

/-- The fields of `message.updated` `properties.info` used by the
service: `info.role` and `info.sessionID`. -/
structure MessageInfo where
  sessionID : Str
  role : Str
deriving DecidableEq

/-- Embedding of `MessageService.handleMessageComplete`: for the
assistant role only, flush the non-empty `(userId, instanceId)` buffer
and delete it. -/
def handleMessageComplete (cfg : BotConfig) (info : MessageInfo) (userId : Nat)
    (instanceId : Str) (bufs : Buffers) : Buffers × Sends :=
  if info.role != str "assistant" then (bufs, [])
  else
    let bufferKey := getBufferKey userId instanceId
    let buffer := (bufGet bufs bufferKey).getD []
    if buffer ≠ [] then
      (bufDelete bufs bufferKey, sendMessageToUser cfg userId buffer)
    else
      (bufs, [])

/-- Permission payload (`permission.updated` properties); note the
source type carries `sessionId` (lower-case d), not `sessionID`. -/
structure Permission where
  id : Str
  ptype : Str
  title : Str
  sessionId : Str
deriving DecidableEq

/-- Todo entry of a `todo.updated` event. -/
structure Todo where
  content : Str
  status : Str
deriving DecidableEq

/-- Embedding of the `OpenCodeEvent` tagged union (opencode/client.ts).
`message.updated` carries whether `"finish" in properties.info` holds. -/
inductive OcEvent where
  | messagePartUpdated (props : PartProps)
  | messageUpdated (info : MessageInfo) (hasFinish : Bool)
  | sessionStatus (sessionID : Str) (statusType : Str)
  | permissionUpdated (perm : Permission)
  | todoUpdated (sessionID : Str) (todos : List Todo)
  | sessionError (sessionID : Str) (error : Str)
deriving DecidableEq

/-- Text built by `MessageService.handlePermissionRequest`. -/
def permissionText (perm : Permission) : Str :=
  str "🔒 Permission Request\n\nType: " ++ perm.ptype ++ str "\nTitle: " ++ perm.title ++
    str "\n\nPlease respond with:\n/allow " ++ perm.id ++ str " or /deny " ++ perm.id

/-- One line of the todo summary built by `MessageService.handleTodoUpdate`. -/
def todoLine (t : Todo) : Str :=
  (if t.status == str "in_progress" then str "🔵" else str "⚪") ++ [' '] ++ t.content ++ ['\n']

/-- Embedding of `MessageService.handleTodoUpdate`: format a progress
summary (no output for an empty todo list). -/
def handleTodoUpdate (cfg : BotConfig) (todos : List Todo) (userId : Nat) : Sends :=
  if todos.isEmpty then []
  else
    let pending := todos.filter (fun t => t.status == str "pending" || t.status == str "in_progress")
    let completed := todos.filter (fun t => t.status == str "completed")
    let text := str "📋 Task Update\n\n"
    let text := if pending.length > 0 then
        text ++ str "In Progress:\n" ++ (pending.map todoLine).flatten ++ ['\n']
      else text
    let text := if completed.length > 0 then
        text ++ str "✅ Completed: " ++ natToStr completed.length ++ str " tasks\n"
      else text
    sendMessageToUser cfg userId text

/-- Text built by `MessageService.handleSessionError`. -/
def sessionErrorText (error : Str) : Str :=
  str "❌ OpenCode Error\n\n" ++ error ++
    str "\n\nUse /providers to see available models or /switch_provider to change."

/-- Embedding of `MessageService.handleOpenCodeEvent`: dispatch by event
type.  `session.status` only toggles a typing indicator (no message
send, no buffer change); `message.updated` reaches the completion
handler only when the info object has a `finish` field. -/
def handleOpenCodeEvent (cfg : BotConfig) (event : OcEvent) (userId : Nat)
    (instanceId : Str) (bufs : Buffers) : Buffers × Sends :=
  match event with
  | .messagePartUpdated props => handleMessagePart cfg props userId instanceId bufs
  | .messageUpdated info hasFinish =>
    if hasFinish then handleMessageComplete cfg info userId instanceId bufs
    else (bufs, [])
  | .sessionStatus _ _ => (bufs, [])
  | .permissionUpdated perm => (bufs, sendMessageToUser cfg userId (permissionText perm))
  | .todoUpdated _ todos => (bufs, handleTodoUpdate cfg todos userId)
  | .sessionError _ error => (bufs, sendMessageToUser cfg userId (sessionErrorText error))

/-- Embedding of `MessageService.extractSessionIdFromEvent`: probe
`properties.sessionID`, then `properties.info.sessionID`, then
`properties.part.sessionID`.  A permission payload only carries a
lower-case `sessionId`, so nothing is extracted from it. -/
def extractSessionIdFromEvent : OcEvent → Option Str
  | .messagePartUpdated props => some props.partSessionID
  | .messageUpdated info _ => some info.sessionID
  | .sessionStatus sessionID _ => some sessionID
  | .permissionUpdated _ => none
  | .todoUpdated sessionID _ => some sessionID
  | .sessionError sessionID _ => some sessionID

/-- Persisted session entry (storage/index.ts `SessionInfo`); an empty
`instanceId` models a falsy (missing) value in an old record. -/
structure SessionInfo where
  id : Str
  title : Str
  instanceId : Str
  createdAt : Nat
  lastAccessed : Nat
deriving DecidableEq

/-- Persisted per-user record (storage/index.ts `UserSessionState`). -/
structure UserSessionState where
  userId : Nat
  chatId : Nat
  currentSessionId : Option Str
  currentInstanceId : Option Str
  sessions : List SessionInfo
  lastActivity : Nat
deriving DecidableEq

/-- Embedding of `MessageService.findUserBySession`: scan the persisted
user records (in storage key order) for the first one whose session list
has an entry with the given `(id, instanceId)` pair. -/
def findUserBySession (storage : List UserSessionState) (sessionId instanceId : Str) :
    Option Nat :=
  match storage with
  | [] => none
  | state :: rest =>
    match state.sessions.find? (fun s => s.id == sessionId && s.instanceId == instanceId) with
    | some _ => some state.userId
    | none => findUserBySession rest sessionId instanceId

/-- Embedding of `MessageService.routeEventToUser`: extract a session id,
resolve the owning user, and dispatch; the returned `Option Nat` is the
user the event was dispatched to (`none` when the event was dropped). -/
def routeEventToUser (cfg : BotConfig) (storage : List UserSessionState)
    (event : OcEvent) (instanceId : Str) (bufs : Buffers) :
    Buffers × Sends × Option Nat :=
  match extractSessionIdFromEvent event with
  | none => (bufs, [], none)
  | some sessionId =>
    match findUserBySession storage sessionId instanceId with
    | some userId =>
      let res := handleOpenCodeEvent cfg event userId instanceId bufs
      (res.1, res.2, some userId)
    | none => (bufs, [], none)

/-! ### Node `path` (posix) primitives used by opencode/client.ts -/

/-- Node `path.isAbsolute` (posix): the path starts with a slash. -/
def isAbsolute (p : Str) : Bool :=
  match p with
  | [] => false
  | c :: _ => c == '/'

/-- Segment resolution of Node `normalizeString`: skip empty and `.`
segments; `..` pops the last kept segment, or is kept (relative paths)
resp. dropped (absolute paths) at the root. -/
def normSegs (allowAboveRoot : Bool) : List Str → List Str → List Str
  | [], stack => stack.reverse
  | seg :: rest, stack =>
    if seg = [] || seg = ['.'] then normSegs allowAboveRoot rest stack
    else if seg = ['.', '.'] then
      match stack with
      | [] =>
        if allowAboveRoot then normSegs allowAboveRoot rest [['.', '.']]
        else normSegs allowAboveRoot rest []
      | top :: stack1 =>
        if top = ['.', '.'] then normSegs allowAboveRoot rest (seg :: top :: stack1)
        else normSegs allowAboveRoot rest stack1
    else normSegs allowAboveRoot rest (seg :: stack)

/-- Node `path.normalize` (posix): resolve `.`/`..` segments and
collapse repeated slashes, preserving a trailing slash. -/
def normalize (p : Str) : Str :=
  if p = [] then ['.']
  else
    let abs := isAbsolute p
    let trailing := p.getLast? == some '/'
    let body := joinSep ['/'] (normSegs (!abs) (splitSep ['/'] p) [])
    if body = [] then
      if abs then ['/'] else if trailing then ['.', '/'] else ['.']
    else
      let body1 := if trailing then body ++ ['/'] else body
      if abs then '/' :: body1 else body1

/-- Node `path.basename` (posix): the last path segment, ignoring
trailing slashes. -/
def basename (p : Str) : Str :=
  ((p.reverse.dropWhile (fun c => c == '/')).takeWhile (fun c => !(c == '/'))).reverse

/-- Node `path.join(a, b)` (posix) for the marker probe. -/
def joinPath (a b : Str) : Str := normalize (a ++ ['/'] ++ b)

/-! ### validateProjectPath / isPathAllowed (opencode/client.ts) -/

/-- The `config.security` values consumed by path validation. -/
structure SecurityConfig where
  allowedProjectPaths : List Str
  enableRootAccess : Bool

/-- The filesystem facts `validateProjectPath` consults (`existsSync`,
`statSync(...).isDirectory()`). -/
structure FileSystem where
  pathExists : Str → Bool
  isDirectory : Str → Bool

/-- The fixed deny-list `BLOCKED_PATHS`. -/
def BLOCKED_PATHS : List Str :=
  [str "/root", str "/home", str "/etc", str "/usr", str "/bin", str "/sbin",
   str "/lib", str "/var", str "/tmp", str "/boot"]

/-- The recognized project-marker entries (`indicators`). -/
def indicators : List Str :=
  [str "package.json", str ".git", str "AGENTS.md", str "README.md", str "src",
   str "pyproject.toml", str "Cargo.toml"]

/-- Embedding of `isPathAllowed`: unrestricted mode accepts everything,
otherwise the normalized path must equal a normalized allow-list root or
lie strictly under one. -/
def isPathAllowed (cfg : SecurityConfig) (projectPath : Str) : Bool :=
  if cfg.enableRootAccess then true
  else
    let normalized := normalize projectPath
    cfg.allowedProjectPaths.any (fun allowed =>
      let normalizedAllowed := normalize allowed
      normalized == normalizedAllowed ||
        strStartsWith normalized (normalizedAllowed ++ ['/']))

/-- Embedding of `validateProjectPath` (the `valid` field of its
result): non-empty, absolute, normalized form free of `..` and NUL, not
under the deny-list, inside the allow-list, an existing directory, and
holding at least one project marker. -/
def validateProjectPath (cfg : SecurityConfig) (fs : FileSystem) (projectPath : Str) : Bool :=
  if projectPath = [] || jsTrim projectPath = [] then false
  else if !isAbsolute projectPath then false
  else
    let normalized := normalize projectPath
    if strContains normalized ['.', '.'] || strContains normalized [Char.ofNat 0] then false
    else if BLOCKED_PATHS.any (fun blocked =>
        normalized == blocked || strStartsWith normalized (blocked ++ ['/'])) then false
    else if !isPathAllowed cfg projectPath then false
    else if !fs.pathExists normalized then false
    else if !fs.isDirectory normalized then false
    else if !indicators.any (fun ind => fs.pathExists (joinPath normalized ind)) then false
    else true

/-! ### findAvailablePort (opencode/client.ts) -/

/-- Outcome of probing one port with `fetch(http://localhost:PORT/session)`:
`none` models a thrown error (connection refused or timeout), `some ok`
a completed response with its `response.ok` flag. -/
abbrev Net := Nat → Option Bool

/-- Loop body of `findAvailablePort`: try ports `startPort + i` while
attempts remain; a probe that throws or answers non-OK yields that
port, and exhausting the attempts throws `No available ports found`
(modelled as `none`). -/
def findAvailablePortGo (startPort : Nat) (net : Net) : Nat → Nat → Option Nat
  | 0, _ => none
  | remaining + 1, i =>
    match net (startPort + i) with
    | some true => findAvailablePortGo startPort net remaining (i + 1)
    | _ => some (startPort + i)

/-- Embedding of `findAvailablePort`. -/
def findAvailablePort (startPort maxAttempts : Nat) (net : Net) : Option Nat :=
  findAvailablePortGo startPort net maxAttempts 0

/-! ### launchOnProject (opencode/client.ts) -/

/-- The environment a launch interacts with: the validation verdict for
the target path, what `findExistingOpenCodeForPath` would discover (the
instance id of a running healthy backend on the same canonical path),
the outcome of `findAvailablePort(3100)`, and whether the freshly
spawned process passes `waitForOpenCode`. -/
structure LaunchWorld where
  validPath : Bool
  discovered : Option Str
  availablePort : Option Nat
  healthyAfterSpawn : Bool
deriving DecidableEq

/-- The mutable launch state: the `clientInstances` registry keys and
the number of processes spawned so far. -/
structure LaunchState where
  registry : List Str
  spawnCount : Nat
deriving DecidableEq

/-- Result of `launchOnProject`: the returned instance id (empty string
on failure) together with the optional error message. -/
structure LaunchResult where
  instanceId : Str
  error : Option Str
deriving DecidableEq

/-- Embedding of `findExistingOpenCodeForPath`: when a healthy instance
is discovered for the path it is registered (if new) and returned. -/
def findExistingOpenCodeForPath (w : LaunchWorld) (st : LaunchState) :
    Option Str × LaunchState :=
  match w.discovered with
  | none => (none, st)
  | some existingId =>
    (some existingId,
      if st.registry.contains existingId then st
      else { st with registry := st.registry ++ [existingId] })

/-- Embedding of `launchOnProject`: derive `project-<basename>`, return
a registered or discovered instance unchanged, otherwise allocate a
port, validate and spawn (counted in `spawnCount`), and register the
client only after the health wait succeeds. -/
def launchOnProject (w : LaunchWorld) (projectPath : Str) (st : LaunchState) :
    LaunchResult × LaunchState :=
  let instanceId := str "project-" ++ basename projectPath
  if st.registry.contains instanceId then ({ instanceId := instanceId, error := none }, st)
  else
    match findExistingOpenCodeForPath w st with
    | (some existingId, st1) => ({ instanceId := existingId, error := none }, st1)
    | (none, st1) =>
      match w.availablePort with
      | none => ({ instanceId := [], error := some (str "No available ports") }, st1)
      | some _ =>
        if !w.validPath then
          ({ instanceId := [], error := some (str "Cannot auto-start OpenCode") }, st1)
        else
          let st2 := { st1 with spawnCount := st1.spawnCount + 1 }
          if !w.healthyAfterSpawn then
            ({ instanceId := [], error := some (str "OpenCode did not start within timeout") }, st2)
          else
            ({ instanceId := instanceId, error := none },
              { st2 with registry := st2.registry ++ [instanceId] })

/-! ### SessionManager.sendMessage (services/session-manager.ts) -/

/-- Storage key `user:<id>`. -/
def userKey (userId : Nat) : Str := str "user:" ++ natToStr userId

/-- Association-list lookup mirroring `storage.get`. -/
def alGet (storage : List (Str × UserSessionState)) (k : Str) : Option UserSessionState :=
  (storage.find? (fun e => e.1 == k)).map (fun e => e.2)

/-- Association-list update mirroring `storage.set`. -/
def alSet (storage : List (Str × UserSessionState)) (k : Str) (v : UserSessionState) :
    List (Str × UserSessionState) :=
  match storage with
  | [] => [(k, v)]
  | e :: rest => if e.1 == k then (k, v) :: rest else e :: alSet rest k v

/-- JS falsiness of a nullable string (`null`, absent or empty). -/
def strFalsy : Option Str → Bool
  | none => true
  | some s => s.isEmpty

/-- The condition under which `migrateOldSessions` rewrites a record:
some session lacks an `instanceId`, or `currentInstanceId` is unset
while sessions exist. -/
def needsMigration (state : UserSessionState) : Bool :=
  state.sessions.any (fun s => s.instanceId.isEmpty) ||
    (strFalsy state.currentInstanceId && !state.sessions.isEmpty)

/-- Embedding of `migrateOldSessions` applied to the in-memory record:
fill missing session `instanceId`s with the default, then backfill
`currentInstanceId` from the first session. -/
def migrateOldSessions (defaultInstanceId : Str) (state : UserSessionState) :
    UserSessionState :=
  let sessions1 := state.sessions.map (fun s =>
    if s.instanceId.isEmpty then { s with instanceId := defaultInstanceId } else s)
  let state1 := { state with sessions := sessions1 }
  if strFalsy state1.currentInstanceId && !state1.sessions.isEmpty then
    { state1 with currentInstanceId := some ((state1.sessions.headD
        { id := [], title := [], instanceId := [], createdAt := 0, lastAccessed := 0 }).instanceId) }
  else state1

/-- Embedding of `SessionManager.getOrCreateUserState`: create and
persist a fresh record when none exists; migrate (and persist) an old
record; otherwise return the stored record without writing. -/
def getOrCreateUserState (defaultInstanceId : Str) (now : Nat) (userId chatId : Nat)
    (storage : List (Str × UserSessionState)) :
    UserSessionState × List (Str × UserSessionState) :=
  let key := userKey userId
  match alGet storage key with
  | none =>
    let state : UserSessionState :=
      { userId := userId, chatId := chatId, currentSessionId := none,
        currentInstanceId := none, sessions := [], lastActivity := now }
    (state, alSet storage key state)
  | some state =>
    if needsMigration state then
      let state1 := migrateOldSessions defaultInstanceId state
      (state1, alSet storage key state1)
    else (state, storage)

/-- Update `lastAccessed` of the first session with the given id
(`state.sessions.find(...)` followed by an in-place mutation). -/
def touchFirstSession (sessionId : Str) (now : Nat) : List SessionInfo → List SessionInfo
  | [] => []
  | s :: rest =>
    if s.id == sessionId then { s with lastAccessed := now } :: rest
    else s :: touchFirstSession sessionId now rest

/-- Embedding of `SessionManager.sendMessage`.  `promptThrows` models
`getOpenCodeClient`/`sendPrompt` raising (unknown instance or a failed
backend call); the returned flag is `result.success`, and the persisted
storage is written back only on the success path. -/
def smSendMessage (defaultInstanceId : Str) (now : Nat) (promptThrows : Bool)
    (storage : List (Str × UserSessionState)) (userId : Nat) :
    (Bool × Option Str) × List (Str × UserSessionState) :=
  let res := getOrCreateUserState defaultInstanceId now userId 0 storage
  let state := res.1
  let storage1 := res.2
  if strFalsy state.currentSessionId || strFalsy state.currentInstanceId then
    ((false, some (str "No active session")), storage1)
  else if promptThrows then
    ((false, some (str "Unknown error")), storage1)
  else
    let state1 := { state with
      sessions := touchFirstSession (state.currentSessionId.getD []) now state.sessions,
      lastActivity := now }
    ((true, none), alSet storage1 (userKey userId) state1)

/-! ### Concrete fixtures used by witnesses and counterexamples -/

/-- Security config with allow-list `["/ws"]` and no root access. -/
def cfgWs : SecurityConfig := { allowedProjectPaths := [str "/ws"], enableRootAccess := false }

/-- Filesystem holding a single project directory `/ws/proj` with a
`.git` marker. -/
def fsWs : FileSystem :=
  { pathExists := fun q => q == str "/ws/proj" || q == str "/ws/proj/.git",
    isDirectory := fun q => q == str "/ws/proj" }

/-- Network where every probed port answers with a non-OK response. -/
def netBusyNotOk : Net := fun _ => some false

/-- Network where every probed port answers OK. -/
def netAllOk : Net := fun _ => some true

/-- Launch environment whose spawned process never becomes healthy. -/
def wTimeout : LaunchWorld :=
  { validPath := true, discovered := none, availablePort := some 3100,
    healthyAfterSpawn := false }

/-- Launch environment where a spawn succeeds and becomes healthy. -/
def wHealthy : LaunchWorld :=
  { validPath := true, discovered := none, availablePort := some 3100,
    healthyAfterSpawn := true }

/-- Launch state with an empty registry and no spawned process. -/
def emptyLaunchState : LaunchState := { registry := [], spawnCount := 0 }

/-- A persisted user record with no active session. -/
def idleUserState : UserSessionState :=
  { userId := 7, chatId := 0, currentSessionId := none, currentInstanceId := none,
    sessions := [], lastActivity := 0 }

/-- Storage holding only `idleUserState` under its user key. -/
def idleStorage : List (Str × UserSessionState) := [(userKey 7, idleUserState)]

/-- A user record owning session `s1` on instance `other`. -/
def otherInstanceUserState : UserSessionState :=
  { userId := 9, chatId := 0, currentSessionId := some (str "s1"),
    currentInstanceId := some (str "other"),
    sessions := [{ id := str "s1", title := str "t", instanceId := str "other",
                   createdAt := 0, lastAccessed := 0 }],
    lastActivity := 0 }

/-! ## Helper lemmas: JS string primitives -/

theorem strStartsWith_eq {s pre : Str} (h : strStartsWith s pre = true) :
    s = pre ++ s.drop pre.length := by
  induction pre generalizing s with
  | nil => simp
  | cons d rest ih =>
    cases s with
    | nil => simp [strStartsWith] at h
    | cons c t =>
      simp only [strStartsWith, Bool.and_eq_true, beq_iff_eq] at h
      obtain ⟨rfl, h2⟩ := h
      simpa using ih h2

theorem joinSep_cons_of_ne_nil (sep : Str) (x : Str) {l : List Str} (h : l ≠ []) :
    joinSep sep (x :: l) = x ++ sep ++ joinSep sep l := by
  cases l with
  | nil => exact absurd rfl h
  | cons y rest => rfl

theorem splitSepAux_ne_nil (sep : Str) : ∀ (fuel : Nat) (s acc : Str),
    splitSepAux sep fuel s acc ≠ [] := by
  intro fuel
  induction fuel with
  | zero => intro s acc; cases s <;> simp [splitSepAux]
  | succ fuel ih =>
    intro s acc
    cases s with
    | nil => simp [splitSepAux]
    | cons c rest =>
      simp only [splitSepAux]
      split
      · simp
      · exact ih rest (c :: acc)

theorem joinSep_splitSepAux (sep : Str) (hsep : sep ≠ []) :
    ∀ (fuel : Nat) (s acc : Str), s.length ≤ fuel →
      joinSep sep (splitSepAux sep fuel s acc) = acc.reverse ++ s := by
  intro fuel
  induction fuel with
  | zero =>
    intro s acc hlen
    have hs : s = [] := List.eq_nil_of_length_eq_zero (Nat.le_zero.mp hlen)
    subst hs
    simp [splitSepAux, joinSep]
  | succ fuel ih =>
    intro s acc hlen
    cases s with
    | nil => simp [splitSepAux, joinSep]
    | cons c rest =>
      simp only [splitSepAux]
      split
      · rename_i hpre
        rw [joinSep_cons_of_ne_nil sep _ (splitSepAux_ne_nil sep fuel _ [])]
        have hrest : (List.drop (sep.length - 1) rest).length ≤ fuel := by
          have h1 : (List.drop (sep.length - 1) rest).length = rest.length - (sep.length - 1) :=
            List.length_drop _ _
          simp only [List.length_cons] at hlen
          omega
        rw [ih _ [] hrest]
        have hdec := strStartsWith_eq hpre
        obtain ⟨d, sep1, rfl⟩ : ∃ d sep1, sep = d :: sep1 := by
          cases sep with
          | nil => exact absurd rfl hsep
          | cons d sep1 => exact ⟨d, sep1, rfl⟩
        simp only [List.length_cons, List.drop_succ_cons, Nat.add_sub_cancel] at hdec ⊢
        simp [hdec]
      · rename_i hpre
        have hrest : rest.length ≤ fuel := by
          simp only [List.length_cons] at hlen; omega
        rw [ih rest (c :: acc) hrest]
        simp

theorem joinSep_splitSep (sep s : Str) (hsep : sep ≠ []) :
    joinSep sep (splitSep sep s) = s := by
  simpa using joinSep_splitSepAux sep hsep s.length s [] (Nat.le_refl _)

theorem jsTrim_nil : jsTrim [] = [] := rfl

theorem length_jsTrim_le (s : Str) : (jsTrim s).length ≤ s.length := by
  calc (jsTrim s).length ≤ (List.dropWhile ws s).length :=
        ( List.rdropWhile_prefix ws (List.dropWhile ws s)).length_le
    _ ≤ s.length := ((List.dropWhile_suffix ws).sublist).length_le

theorem mem_dropWhile_of_not {s : Str} {c : Char} (hc : c ∈ s) (hnw : ws c = false) :
    c ∈ List.dropWhile ws s := by
  have hsplit : List.takeWhile ws s ++ List.dropWhile ws s = s :=
    List.takeWhile_append_dropWhile ws s
  rcases List.mem_append.mp (by rw [hsplit]; exact hc) with h | h
  · have := List.mem_takeWhile_imp h
    simp [hnw] at this
  · exact h

theorem jsTrim_ne_nil {s : Str} {c : Char} (hc : c ∈ s) (hnw : ws c = false) :
    jsTrim s ≠ [] := by
  intro hcontra
  have h1 : c ∈ List.dropWhile ws s := mem_dropWhile_of_not hc hnw
  have h2 := List.rdropWhile_eq_nil_iff.mp hcontra c h1
  simp [hnw] at h2

theorem dropWhile_eq_self_of_jsTrim {s : Str} (h : jsTrim s = s) :
    List.dropWhile ws s = s ∧ List.rdropWhile ws s = s := by
  have hsuf : List.dropWhile ws s <:+ s := List.dropWhile_suffix ws
  have h1 : (jsTrim s).length ≤ (List.dropWhile ws s).length :=
    ( List.rdropWhile_prefix ws (List.dropWhile ws s)).length_le
  have h2 : (List.dropWhile ws s).length ≤ s.length := hsuf.sublist.length_le
  have hlen : (List.dropWhile ws s).length = s.length := by
    rw [h] at h1; omega
  have hdw : List.dropWhile ws s = s := hsuf.sublist.eq_of_length hlen
  refine ⟨hdw, ?_⟩
  have : jsTrim s = List.rdropWhile ws s := by rw [jsTrim, hdw]
  rw [← this, h]

theorem head_not_ws_of_jsTrim {c : Char} {t : Str} (h : jsTrim (c :: t) = c :: t) :
    ws c = false := by
  have hdw := (dropWhile_eq_self_of_jsTrim h).1
  by_contra hws
  have hws2 : ws c = true := by
    cases hwc : ws c
    · exact absurd hwc hws
    · rfl
  rw [List.dropWhile_cons, hws2] at hdw
  simp only [if_true] at hdw
  have := congrArg List.length hdw
  have hle : (List.dropWhile ws t).length ≤ t.length :=
    ((List.dropWhile_suffix ws).sublist).length_le
  simp only [List.length_cons] at this
  omega

theorem last_not_ws_of_jsTrim {s : Str} (hne : s ≠ []) (h : jsTrim s = s) :
    ws (s.getLast hne) = false := by
  have hrd := (dropWhile_eq_self_of_jsTrim h).2
  have := List.rdropWhile_eq_self_iff.mp hrd hne
  cases hwc : ws (s.getLast hne)
  · rfl
  · exact absurd hwc (by simpa using this)

theorem jsTrim_eq_self_of {s : Str} (hne : s ≠ [])
    (hh : ∀ c t, s = c :: t → ws c = false)
    (hl : ws (s.getLast hne) = false) : jsTrim s = s := by
  obtain ⟨c, t, rfl⟩ : ∃ c t, s = c :: t := by
    cases s with
    | nil => exact absurd rfl hne
    | cons c t => exact ⟨c, t, rfl⟩
  have hc := hh c t rfl
  have hdw : List.dropWhile ws (c :: t) = c :: t := by
    rw [List.dropWhile_cons, hc]
    simp
  rw [jsTrim, hdw]
  exact List.rdropWhile_eq_self_iff.mpr (fun _ => by simpa using hl)

theorem jsTrim_append_mid {a b : Str} (m : Str) (ha : jsTrim a = a) (hna : a ≠ [])
    (hb : jsTrim b = b) (hnb : b ≠ []) : jsTrim (a ++ m ++ b) = a ++ m ++ b := by
  obtain ⟨c, t, rfl⟩ : ∃ c t, a = c :: t := by
    cases a with
    | nil => exact absurd rfl hna
    | cons c t => exact ⟨c, t, rfl⟩
  have hc : ws c = false := head_not_ws_of_jsTrim ha
  have hlast : ws (b.getLast hnb) = false := last_not_ws_of_jsTrim hnb hb
  have hne2 : (c :: t) ++ m ++ b ≠ [] := by simp
  refine jsTrim_eq_self_of hne2 ?_ ?_
  · intro d u hdu
    have h0 : ((c :: t) ++ m ++ b).head? = some c := by simp
    rw [hdu] at h0
    have hd : d = c := by simpa using h0
    rw [hd]; exact hc
  · have hgl : ((c :: t) ++ m ++ b).getLast hne2 = b.getLast hnb :=
      List.getLast_append_of_ne_nil hnb
    rw [hgl]; exact hlast

/-! ## Helper lemmas: chunk reconstruction (claim C3) -/

theorem joinSep_merge (sep : Str) :
    ∀ (xs : List Str) (a b : Str) (ys : List Str),
      joinSep sep (xs ++ (a ++ sep ++ b) :: ys) = joinSep sep (xs ++ a :: b :: ys) := by
  intro xs
  induction xs with
  | nil =>
    intro a b ys
    cases ys with
    | nil => simp [joinSep]
    | cons y rest =>
      rw [List.nil_append, List.nil_append,
        joinSep_cons_of_ne_nil sep _ (by simp : (y :: rest) ≠ ([] : List Str)),
        joinSep_cons_of_ne_nil sep _ (by simp : (b :: y :: rest) ≠ ([] : List Str)),
        joinSep_cons_of_ne_nil sep _ (by simp : (y :: rest) ≠ ([] : List Str))]
      simp [List.append_assoc]
  | cons x xs ih =>
    intro a b ys
    rw [List.cons_append, List.cons_append,
      joinSep_cons_of_ne_nil sep _ (by simp : xs ++ (a ++ sep ++ b) :: ys ≠ []),
      joinSep_cons_of_ne_nil sep _ (by simp : xs ++ a :: b :: ys ≠ []),
      ih]

theorem paraLoop_reconstruct (maxLength : Nat) :
    ∀ (ps : List Str) (chunks : List Str) (cur : Str),
      (∀ p ∈ ps, p ≠ [] ∧ jsTrim p = p ∧ p.length ≤ maxLength) →
      (cur = [] ∨ (cur ≠ [] ∧ jsTrim cur = cur)) →
      joinSep nlnl (flushChunks (paraLoop maxLength ps (chunks, cur))) =
        joinSep nlnl (chunks ++ (if cur = [] then [] else [cur]) ++ ps) := by
  intro ps
  induction ps with
  | nil =>
    intro chunks cur hps hcur
    rcases hcur with rfl | ⟨hne, htr⟩
    · simp [paraLoop, flushChunks, jsTrim_nil]
    · simp [paraLoop, flushChunks, htr, hne]
  | cons p ps ih =>
    intro chunks cur hps hcur
    obtain ⟨hpne, hptr, hplen⟩ := hps p (by simp)
    have hps2 : ∀ q ∈ ps, q ≠ [] ∧ jsTrim q = q ∧ q.length ≤ maxLength :=
      fun q hq => hps q (by simp [hq])
    rcases hcur with rfl | ⟨hne, htr⟩
    · simp only [paraLoop, List.length_nil, Nat.zero_add, jsTrim_nil, ne_eq,
        not_true_eq_false, if_false, ite_self]
      by_cases hg : maxLength < p.length + 2
      · rw [if_pos hg]
        have hginner : ¬maxLength < p.length := by omega
        rw [if_neg hginner]
        rw [ih chunks p hps2 (Or.inr ⟨hpne, hptr⟩)]
        simp [hpne]
      · rw [if_neg hg]
        rw [ih chunks _ hps2 (Or.inr ⟨by simpa using hpne, by simpa using hptr⟩)]
        simp [hpne]
    · by_cases hg : maxLength < cur.length + p.length + 2
      · simp only [paraLoop, if_pos hg, htr, hne, ne_eq, not_false_eq_true, if_true]
        have hginner : ¬maxLength < p.length := by omega
        rw [if_neg hginner]
        rw [ih (chunks ++ [cur]) p hps2 (Or.inr ⟨hpne, hptr⟩)]
        simp [hpne, hne]
      · simp only [paraLoop, if_neg hg]
        have hnew : cur ++ (if cur = [] then [] else nlnl) ++ p = cur ++ nlnl ++ p := by
          simp [hne]
        rw [hnew]
        have hnewne : cur ++ nlnl ++ p ≠ [] := by
          intro hc
          have := congrArg List.length hc
          simp [nlnl] at this
        have hnewtr : jsTrim (cur ++ nlnl ++ p) = cur ++ nlnl ++ p :=
          jsTrim_append_mid nlnl htr hne hptr hpne
        rw [ih chunks (cur ++ nlnl ++ p) hps2 (Or.inr ⟨hnewne, hnewtr⟩)]
        simp only [hnewne, hne, ne_eq, if_neg, if_false]
        have hlst : chunks ++ [cur ++ nlnl ++ p] ++ ps = chunks ++ (cur ++ nlnl ++ p) :: ps := by
          simp
        rw [hlst, joinSep_merge]
        simp

/-- C3 (counterexample): the reconstruction claim fails as stated.  For
`maxLength = 1 > 0` and input `" a"`, `chunkMessage` trims the leading
whitespace, so rejoining the chunks with the paragraph separator does
not reproduce the input. -/
theorem chunkMessage_reconstruct_counterexample :
    0 < 1 ∧ chunkMessage (str " a") 1 = [str "a"] ∧
      joinSep nlnl (chunkMessage (str " a") 1) ≠ str " a" := by
  refine ⟨by decide, by decide, by decide⟩

/-- C3 (amended): if every blank-line-separated paragraph of the input
is non-empty, free of leading/trailing whitespace, and no longer than
`maxLength`, then rejoining the chunks of `chunkMessage` with the
paragraph separator reconstructs the input exactly.  (In general the
code trims whitespace at chunk boundaries and drops text after the last
sentence terminator of an over-long paragraph, so the unconditional
claim fails.) -/
theorem chunkMessage_reconstructs (text : Str) (maxLength : Nat) (h0 : 0 < maxLength)
    (hps : ∀ p ∈ splitSep nlnl text, p ≠ [] ∧ jsTrim p = p ∧ p.length ≤ maxLength) :
    joinSep nlnl (chunkMessage text maxLength) = text := by
  rw [chunkMessage]
  by_cases hshort : text.length ≤ maxLength
  · rw [if_pos hshort]
    rfl
  · rw [if_neg hshort]
    have h := paraLoop_reconstruct maxLength (splitSep nlnl text) [] [] hps (Or.inl rfl)
    simp only [List.nil_append, if_pos rfl] at h
    rw [h]
    exact joinSep_splitSep nlnl text (by decide)

/-- C3 (witness): the amended theorem applied to the documented example
`"aaaa\n\nbbbb\n\ncccc"` with `maxLength = 10`. -/
theorem chunkMessage_reconstructs_witness :
    joinSep nlnl (chunkMessage (str "aaaa\n\nbbbb\n\ncccc") 10) =
      str "aaaa\n\nbbbb\n\ncccc" :=
  chunkMessage_reconstructs (str "aaaa\n\nbbbb\n\ncccc") 10 (by decide) (by decide)

/-! ## Helper lemmas: chunk length bound (claim C8) -/

/-- A finished chunk obeys the length ceiling, or is the trim of a
single over-long sentence of one of the paragraphs. -/
def ChunkInv (maxLength : Nat) (paras : List Str) (c : Str) : Prop :=
  c.length ≤ maxLength ∨
    ∃ p ∈ paras, ∃ s ∈ sentencesOf p, c = jsTrim s ∧ maxLength < s.length

/-- The running chunk obeys the length ceiling, or is a single
over-long sentence of one of the paragraphs. -/
def CurInv (maxLength : Nat) (paras : List Str) (cur : Str) : Prop :=
  cur.length ≤ maxLength ∨
    ∃ p ∈ paras, ∃ s ∈ sentencesOf p, cur = s ∧ maxLength < s.length

theorem chunkInv_of_curInv {maxLength : Nat} {paras : List Str} {cur : Str}
    (h : CurInv maxLength paras cur) : ChunkInv maxLength paras (jsTrim cur) := by
  rcases h with h | ⟨p, hp, s, hs, heq, hlen⟩
  · exact Or.inl (Nat.le_trans (length_jsTrim_le cur) h)
  · exact Or.inr ⟨p, hp, s, hs, by rw [heq], hlen⟩

theorem sentenceLoop_inv (maxLength : Nat) (paras : List Str) (p : Str) (hp : p ∈ paras) :
    ∀ (ss : List Str) (chunks : List Str) (cur : Str),
      (∀ s ∈ ss, s ∈ sentencesOf p) →
      (∀ c ∈ chunks, ChunkInv maxLength paras c) →
      CurInv maxLength paras cur →
      (∀ c ∈ (sentenceLoop maxLength ss (chunks, cur)).1, ChunkInv maxLength paras c) ∧
        CurInv maxLength paras (sentenceLoop maxLength ss (chunks, cur)).2 := by
  intro ss
  induction ss with
  | nil =>
    intro chunks cur _ hchunks hcur
    exact ⟨hchunks, hcur⟩
  | cons s ss ih =>
    intro chunks cur hss hchunks hcur
    have hss2 : ∀ q ∈ ss, q ∈ sentencesOf p := fun q hq => hss q (by simp [hq])
    simp only [sentenceLoop]
    by_cases hg : maxLength < cur.length + s.length
    · rw [if_pos hg]
      have hcur2 : CurInv maxLength paras s := by
        by_cases hsl : s.length ≤ maxLength
        · exact Or.inl hsl
        · exact Or.inr ⟨p, hp, s, hss s (by simp), rfl, by omega⟩
      have hchunks2 : ∀ c ∈ (if jsTrim cur ≠ [] then chunks ++ [jsTrim cur] else chunks),
          ChunkInv maxLength paras c := by
        split
        · intro c hc
          rcases List.mem_append.mp hc with h | h
          · exact hchunks c h
          · have : c = jsTrim cur := by simpa using h
            rw [this]
            exact chunkInv_of_curInv hcur
        · exact hchunks
      exact ih _ _ hss2 hchunks2 hcur2
    · rw [if_neg hg]
      have hcur2 : CurInv maxLength paras (cur ++ s) := by
        refine Or.inl ?_
        rw [List.length_append]
        omega
      exact ih _ _ hss2 hchunks hcur2

theorem paraLoop_inv (maxLength : Nat) (paras : List Str) :
    ∀ (ps : List Str) (chunks : List Str) (cur : Str),
      (∀ q ∈ ps, q ∈ paras) →
      (∀ c ∈ chunks, ChunkInv maxLength paras c) →
      CurInv maxLength paras cur →
      (∀ c ∈ (paraLoop maxLength ps (chunks, cur)).1, ChunkInv maxLength paras c) ∧
        CurInv maxLength paras (paraLoop maxLength ps (chunks, cur)).2 := by
  intro ps
  induction ps with
  | nil =>
    intro chunks cur _ hchunks hcur
    exact ⟨hchunks, hcur⟩
  | cons p ps ih =>
    intro chunks cur hps hchunks hcur
    have hpmem : p ∈ paras := hps p (by simp)
    have hps2 : ∀ q ∈ ps, q ∈ paras := fun q hq => hps q (by simp [hq])
    simp only [paraLoop]
    by_cases hg : maxLength < cur.length + p.length + 2
    · rw [if_pos hg]
      have hst1 : (∀ c ∈ (if jsTrim cur ≠ [] then (chunks ++ [jsTrim cur], ([] : Str))
            else (chunks, cur)).1, ChunkInv maxLength paras c) ∧
          CurInv maxLength paras (if jsTrim cur ≠ [] then (chunks ++ [jsTrim cur], ([] : Str))
            else (chunks, cur)).2 := by
        split
        · refine ⟨?_, Or.inl (by simp)⟩
          intro c hc
          rcases List.mem_append.mp hc with h | h
          · exact hchunks c h
          · have : c = jsTrim cur := by simpa using h
            rw [this]
            exact chunkInv_of_curInv hcur
        · exact ⟨hchunks, hcur⟩
      by_cases hpl : maxLength < p.length
      · rw [if_pos hpl]
        have hsl := sentenceLoop_inv maxLength paras p hpmem (sentencesOf p) _ _
          (fun q hq => hq) hst1.1 hst1.2
        exact ih _ _ hps2 hsl.1 hsl.2
      · rw [if_neg hpl]
        exact ih _ _ hps2 hst1.1 (Or.inl (by omega))
    · rw [if_neg hg]
      have hcur2 : CurInv maxLength paras (cur ++ (if cur = [] then [] else nlnl) ++ p) := by
        refine Or.inl ?_
        simp only [List.length_append]
        split <;> simp [nlnl] <;> omega
      exact ih _ _ hps2 hchunks hcur2

/-- C8: a text no longer than `maxLength` is returned unchanged as the
single chunk; otherwise every chunk respects the ceiling except that
the trim of a single sentence longer than `maxLength` may be emitted as
one chunk (it is never split further). -/
theorem chunkMessage_length_spec (text : Str) (maxLength : Nat) (h0 : 0 < maxLength) :
    (text.length ≤ maxLength → chunkMessage text maxLength = [text]) ∧
    (∀ c ∈ chunkMessage text maxLength,
      c.length ≤ maxLength ∨
        ∃ p ∈ splitSep nlnl text, ∃ s ∈ sentencesOf p,
          c = jsTrim s ∧ maxLength < s.length) := by
  constructor
  · intro hshort
    rw [chunkMessage, if_pos hshort]
  · intro c hc
    rw [chunkMessage] at hc
    by_cases hshort : text.length ≤ maxLength
    · rw [if_pos hshort] at hc
      have : c = text := by simpa using hc
      exact Or.inl (this ▸ hshort)
    · rw [if_neg hshort] at hc
      have hloop := paraLoop_inv maxLength (splitSep nlnl text) (splitSep nlnl text) [] []
        (fun q hq => hq) (by simp) (Or.inl (by simp))
      have : ChunkInv maxLength (splitSep nlnl text) c := by
        simp only [flushChunks] at hc
        rcases hlc : jsTrim (paraLoop maxLength (splitSep nlnl text) ([], [])).2 with _ | _
        · rw [hlc] at hc
          simp only [ne_eq, not_true_eq_false, if_false] at hc
          exact hloop.1 c hc
        · rw [hlc] at hc
          simp only [ne_eq, List.cons_ne_nil, not_false_eq_true, if_true] at hc
          rcases List.mem_append.mp hc with h | h
          · exact hloop.1 c h
          · have hceq : c = jsTrim (paraLoop maxLength (splitSep nlnl text) ([], [])).2 := by
              rw [hlc]; simpa using h
            rw [hceq]
            exact chunkInv_of_curInv hloop.2
      exact this

/-- C8 (witness): the short-input case at `"hi"` with `maxLength = 10`,
and the over-long-sentence case at a single 7-character sentence with
`maxLength = 5`. -/
theorem chunkMessage_length_spec_witness :
    chunkMessage (str "hi") 10 = [str "hi"] ∧
      chunkMessage (str "aaaaaaa") 5 = [str "aaaaaaa"] :=
  ⟨(chunkMessage_length_spec (str "hi") 10 (by decide)).1 (by decide), by decide⟩

/-! ## Helper lemmas: the message buffer map -/

theorem bufGet_set_self (m : Buffers) (k v : Str) : bufGet (bufSet m k v) k = some v := by
  simp [bufGet, bufSet]

theorem bufGet_delete_self (m : Buffers) (k : Str) : bufGet (bufDelete m k) k = none := by
  simp [bufGet, bufDelete]

/-! ## Claim C1: completion flush -/

/-- C1: on a completion whose role is `assistant`,
`handleMessageComplete` hands the entire accumulated buffer of the
`(userId, instanceId)` key to delivery and leaves that buffer empty; on
any other role it sends nothing and leaves the buffers untouched.
Feeding `"Hello"`, `" "`, `"world"` (total below the chunk-size
threshold) and then an assistant completion yields exactly the one
delivered chunk `"Hello world"` and an empty buffer. -/
theorem handleMessageComplete_spec (cfg : BotConfig) (bufs : Buffers) (info : MessageInfo)
    (userId : Nat) (instanceId : Str) :
    (info.role = str "assistant" →
      (handleMessageComplete cfg info userId instanceId bufs).2 =
        (if (bufGet bufs (getBufferKey userId instanceId)).getD [] = [] then []
         else sendMessageToUser cfg userId
           ((bufGet bufs (getBufferKey userId instanceId)).getD [])) ∧
      (bufGet (handleMessageComplete cfg info userId instanceId bufs).1
        (getBufferKey userId instanceId)).getD [] = []) ∧
    (info.role ≠ str "assistant" →
      handleMessageComplete cfg info userId instanceId bufs = (bufs, [])) ∧
    (let cfg0 := defaultBotConfig
     let key := getBufferKey 7 (str "inst")
     let part : Str → PartProps := fun d => ⟨str "s1", str "text", some d⟩
     let b1 := (handleMessagePart cfg0 (part (str "Hello")) 7 (str "inst") bufEmpty).1
     let b2 := (handleMessagePart cfg0 (part (str " ")) 7 (str "inst") b1).1
     let b3 := (handleMessagePart cfg0 (part (str "world")) 7 (str "inst") b2).1
     let done := handleMessageComplete cfg0 ⟨str "s1", str "assistant"⟩ 7 (str "inst") b3
     done.2 = [(7, str "Hello world")] ∧ bufGet done.1 key = none) := by
  refine ⟨?_, ?_, ?_⟩
  · intro hrole
    rw [handleMessageComplete]
    have hb : (info.role != str "assistant") = false := by
      simp [hrole]
    rw [hb]
    simp only [Bool.false_eq_true, if_false]
    by_cases hbuf : (bufGet bufs (getBufferKey userId instanceId)).getD [] = []
    · rw [if_neg (by simpa using hbuf), if_pos hbuf]
      exact ⟨rfl, hbuf⟩
    · rw [if_pos (by simpa using hbuf), if_neg hbuf]
      refine ⟨rfl, ?_⟩
      rw [bufGet_delete_self]
      rfl
  · intro hrole
    rw [handleMessageComplete]
    have hb : (info.role != str "assistant") = true := by
      simpa using hrole
    rw [hb]
    simp
  · refine ⟨by decide, by decide⟩

/-- C1 (witness): the non-assistant clause at a concrete user-role
completion over the empty buffer map. -/
theorem handleMessageComplete_spec_witness :
    handleMessageComplete defaultBotConfig ⟨str "s1", str "user"⟩
      7 (str "inst") bufEmpty = (bufEmpty, []) :=
  (handleMessageComplete_spec defaultBotConfig bufEmpty
    ⟨str "s1", str "user"⟩ 7 (str "inst")).2.1 (by decide)

/-! ## Claim C7: delta buffering and threshold flush -/

/-- C7: `handleMessagePart` appends to the `(userId, instanceId)` buffer
exactly on a `"text"` part with non-empty delta; when the accumulated
buffer reaches `config.bot.messageChunkSize` it is delivered at once and
reset to the empty string, otherwise it is retained with nothing sent. -/
theorem handleMessagePart_spec (cfg : BotConfig) (bufs : Buffers) (props : PartProps)
    (userId : Nat) (instanceId : Str) :
    (¬(props.partType = str "text" ∧ ∃ d, props.delta = some d ∧ d ≠ []) →
      handleMessagePart cfg props userId instanceId bufs = (bufs, [])) ∧
    (∀ d, props.delta = some d → d ≠ [] → props.partType = str "text" →
      ((cfg.messageChunkSize ≤ ((bufGet bufs (getBufferKey userId instanceId)).getD [] ++ d).length →
        (handleMessagePart cfg props userId instanceId bufs).2 =
          sendMessageToUser cfg userId
            ((bufGet bufs (getBufferKey userId instanceId)).getD [] ++ d) ∧
        bufGet (handleMessagePart cfg props userId instanceId bufs).1
          (getBufferKey userId instanceId) = some []) ∧
      (((bufGet bufs (getBufferKey userId instanceId)).getD [] ++ d).length < cfg.messageChunkSize →
        (handleMessagePart cfg props userId instanceId bufs).2 = [] ∧
        bufGet (handleMessagePart cfg props userId instanceId bufs).1
          (getBufferKey userId instanceId) =
          some ((bufGet bufs (getBufferKey userId instanceId)).getD [] ++ d)))) := by
  constructor
  · intro hneg
    rw [handleMessagePart]
    have hcond : (props.partType == str "text" && deltaTruthy props.delta) = false := by
      by_cases hpt : props.partType = str "text"
      · cases hd : props.delta with
        | none => simp [deltaTruthy, hd]
        | some d =>
          by_cases hde : d = []
          · simp [deltaTruthy, hd, hde]
          · exact absurd ⟨hpt, d, hd, hde⟩ hneg
      · simp [hpt]
    rw [hcond]
    simp
  · intro d hd hde hpt
    rw [handleMessagePart]
    have hcond : (props.partType == str "text" && deltaTruthy props.delta) = true := by
      simp only [deltaTruthy, hd, hpt, Bool.and_eq_true, beq_self_eq_true, true_and]
      simpa using hde
    rw [hcond]
    simp only [if_true, hd, Option.getD_some]
    constructor
    · intro hflush
      rw [if_pos hflush]
      exact ⟨rfl, bufGet_set_self _ _ _⟩
    · intro hkeep
      rw [if_neg (by omega)]
      exact ⟨rfl, bufGet_set_self _ _ _⟩

/-- C7 (witness): a single fragment whose delta alone reaches a
chunk-size threshold of 3 is flushed immediately from an empty buffer,
and a `"reasoning"` fragment is never buffered. -/
theorem handleMessagePart_spec_witness :
    ((handleMessagePart ⟨4000, 3⟩ ⟨str "s1", str "text", some (str "abcd")⟩
        7 (str "i") bufEmpty).2 =
      sendMessageToUser ⟨4000, 3⟩ 7 (str "abcd") ∧
     bufGet (handleMessagePart ⟨4000, 3⟩ ⟨str "s1", str "text", some (str "abcd")⟩
        7 (str "i") bufEmpty).1 (getBufferKey 7 (str "i")) = some []) ∧
    handleMessagePart ⟨4000, 3⟩ ⟨str "s1", str "reasoning", some (str "abcd")⟩
        7 (str "i") bufEmpty = (bufEmpty, []) := by
  constructor
  · have h := (handleMessagePart_spec ⟨4000, 3⟩ bufEmpty
      ⟨str "s1", str "text", some (str "abcd")⟩ 7 (str "i")).2
      (str "abcd") rfl (by decide) rfl
    exact ⟨(h.1 (by decide)).1, (h.1 (by decide)).2⟩
  · exact (handleMessagePart_spec ⟨4000, 3⟩ bufEmpty
      ⟨str "s1", str "reasoning", some (str "abcd")⟩ 7 (str "i")).1 (by decide)

/-! ## Claim C2: (sessionId, instanceId) correlation -/

theorem findUserBySession_some {storage : List UserSessionState} {sessionId instanceId : Str}
    {u : Nat} (h : findUserBySession storage sessionId instanceId = some u) :
    ∃ state ∈ storage, state.userId = u ∧
      ∃ s ∈ state.sessions, s.id = sessionId ∧ s.instanceId = instanceId := by
  induction storage with
  | nil => simp [findUserBySession] at h
  | cons state rest ih =>
    rw [findUserBySession] at h
    cases hfind : state.sessions.find?
        (fun s => s.id == sessionId && s.instanceId == instanceId) with
    | none =>
      rw [hfind] at h
      obtain ⟨st2, hmem, hrest⟩ := ih h
      exact ⟨st2, by simp [hmem], hrest⟩
    | some s =>
      rw [hfind] at h
      have hu : state.userId = u := by simpa using h
      have hmem := List.mem_of_find?_eq_some hfind
      have hprop := List.find?_some hfind
      simp only [Bool.and_eq_true, beq_iff_eq] at hprop
      exact ⟨state, by simp, hu, s, hmem, hprop.1, hprop.2⟩

theorem findUserBySession_none {storage : List UserSessionState} {sessionId instanceId : Str}
    (h : ∀ state ∈ storage, ∀ s ∈ state.sessions,
      ¬(s.id = sessionId ∧ s.instanceId = instanceId)) :
    findUserBySession storage sessionId instanceId = none := by
  induction storage with
  | nil => rfl
  | cons state rest ih =>
    rw [findUserBySession]
    have hfind : state.sessions.find?
        (fun s => s.id == sessionId && s.instanceId == instanceId) = none := by
      rw [List.find?_eq_none]
      intro s hs
      have := h state (by simp) s hs
      simpa using this
    rw [hfind]
    exact ih (fun st2 hmem => h st2 (by simp [hmem]))

/-- C2: `routeEventToUser` dispatches to a user only when some persisted
record owns a session entry whose `(id, instanceId)` pair equals the
event's `(sessionId, instanceId)`; when no such entry exists — even if
the session id exists under another instance — it returns no user,
invokes no handler and leaves the buffers untouched. -/
theorem routeEventToUser_spec (cfg : BotConfig) (storage : List UserSessionState)
    (event : OcEvent) (instanceId : Str) (bufs : Buffers) (sessionId : Str)
    (hext : extractSessionIdFromEvent event = some sessionId) :
    (∀ u, (routeEventToUser cfg storage event instanceId bufs).2.2 = some u →
      ∃ state ∈ storage, state.userId = u ∧
        ∃ s ∈ state.sessions, s.id = sessionId ∧ s.instanceId = instanceId) ∧
    ((∀ state ∈ storage, ∀ s ∈ state.sessions,
        ¬(s.id = sessionId ∧ s.instanceId = instanceId)) →
      routeEventToUser cfg storage event instanceId bufs = (bufs, [], none)) := by
  have hred : routeEventToUser cfg storage event instanceId bufs =
      (match findUserBySession storage sessionId instanceId with
       | some userId =>
         ((handleOpenCodeEvent cfg event userId instanceId bufs).1,
           (handleOpenCodeEvent cfg event userId instanceId bufs).2, some userId)
       | none => (bufs, [], none)) := by
    rw [routeEventToUser, hext]
  constructor
  · intro u hu
    rw [hred] at hu
    cases hfind : findUserBySession storage sessionId instanceId with
    | none => rw [hfind] at hu; simp at hu
    | some u2 =>
      rw [hfind] at hu
      have : u2 = u := by simpa using hu
      rw [← this]
      exact findUserBySession_some hfind
  · intro hno
    rw [hred, findUserBySession_none hno]

/-- C2 (witness): a status event for session `s1` on instance `inst`
is dropped without touching the buffers when the only persisted record
holds `s1` under the different instance `other`. -/
theorem routeEventToUser_spec_witness :
    routeEventToUser defaultBotConfig [otherInstanceUserState]
      (OcEvent.sessionStatus (str "s1") (str "busy")) (str "inst") bufEmpty =
      (bufEmpty, [], none) :=
  (routeEventToUser_spec defaultBotConfig [otherInstanceUserState]
    (OcEvent.sessionStatus (str "s1") (str "busy")) (str "inst") bufEmpty
    (str "s1") rfl).2 (by decide)

/-! ## Claim C4: project path validation -/

theorem validateProjectPath_eq (cfg : SecurityConfig) (fs : FileSystem) (p : Str) :
    validateProjectPath cfg fs p =
      (!(decide (p = []) || decide (jsTrim p = [])) &&
       isAbsolute p &&
       !(strContains (normalize p) ['.', '.'] || strContains (normalize p) [Char.ofNat 0]) &&
       !(BLOCKED_PATHS.any (fun blocked => normalize p == blocked ||
           strStartsWith (normalize p) (blocked ++ ['/']))) &&
       isPathAllowed cfg p &&
       fs.pathExists (normalize p) &&
       fs.isDirectory (normalize p) &&
       indicators.any (fun ind => fs.pathExists (joinPath (normalize p) ind))) := by
  simp only [validateProjectPath]
  cases h1 : (decide (p = []) || decide (jsTrim p = [])) with
  | true => simp
  | false =>
    cases h2 : isAbsolute p with
    | false => simp
    | true =>
      cases h3 : (strContains (normalize p) ['.', '.'] ||
          strContains (normalize p) [Char.ofNat 0]) with
      | true => simp
      | false =>
        cases h4 : (BLOCKED_PATHS.any (fun blocked => normalize p == blocked ||
            strStartsWith (normalize p) (blocked ++ ['/']))) with
        | true => simp
        | false =>
          cases h5 : isPathAllowed cfg p with
          | false => simp
          | true =>
            cases h6 : fs.pathExists (normalize p) with
            | false => simp
            | true =>
              cases h7 : fs.isDirectory (normalize p) with
              | false => simp
              | true =>
                cases h8 : indicators.any
                    (fun ind => fs.pathExists (joinPath (normalize p) ind)) with
                | false => simp
                | true => simp

/-- C4 (counterexample): the path `/ws/x/../proj` contains a `..`
traversal segment, yet `validateProjectPath` accepts it: normalization
resolves the traversal before the `..` check, so only the normalized
form is screened. -/
theorem validateProjectPath_counterexample :
    (str "..") ∈ splitSep ['/'] (str "/ws/x/../proj") ∧
      validateProjectPath cfgWs fsWs (str "/ws/x/../proj") = true := by
  refine ⟨by decide, by decide⟩

/-- C4 (amended): `validateProjectPath` rejects every path whose
normalized form contains `..`, every path whose normalized form equals
or lies under a deny-list entry, and every existing directory lacking a
recognized project marker; it accepts every absolute, canonical path
(free of `..` and NUL) that avoids the deny-list, lies under the
allow-list (or enjoys root access), and is an existing directory with a
marker.  (As stated, the claim fails: a `..` traversal segment that
normalization resolves is not rejected, and conversely a canonical path
containing `..` inside a file name, or under the deny-list, is rejected
even when the allow-list allows it.) -/
theorem validateProjectPath_spec (cfg : SecurityConfig) (fs : FileSystem) (p : Str) :
    (strContains (normalize p) ['.', '.'] = true →
      validateProjectPath cfg fs p = false) ∧
    ((∃ b ∈ BLOCKED_PATHS, normalize p = b ∨
        strStartsWith (normalize p) (b ++ ['/']) = true) →
      validateProjectPath cfg fs p = false) ∧
    (fs.pathExists (normalize p) = true → fs.isDirectory (normalize p) = true →
      (∀ ind ∈ indicators, fs.pathExists (joinPath (normalize p) ind) = false) →
      validateProjectPath cfg fs p = false) ∧
    (isAbsolute p = true → normalize p = p →
      strContains p ['.', '.'] = false → strContains p [Char.ofNat 0] = false →
      (∀ b ∈ BLOCKED_PATHS, p ≠ b ∧ strStartsWith p (b ++ ['/']) = false) →
      (cfg.enableRootAccess = true ∨ ∃ a ∈ cfg.allowedProjectPaths,
        p = normalize a ∨ strStartsWith p (normalize a ++ ['/']) = true) →
      fs.pathExists p = true → fs.isDirectory p = true →
      (∃ ind ∈ indicators, fs.pathExists (joinPath p ind) = true) →
      validateProjectPath cfg fs p = true) := by
  refine ⟨?_, ?_, ?_, ?_⟩
  · intro h
    rw [validateProjectPath_eq, h]
    simp
  · intro h
    obtain ⟨b, hb, hor⟩ := h
    have hany : (BLOCKED_PATHS.any (fun blocked => normalize p == blocked ||
        strStartsWith (normalize p) (blocked ++ ['/']))) = true := by
      rw [List.any_eq_true]
      refine ⟨b, hb, ?_⟩
      rcases hor with h1 | h1
      · simp [h1]
      · simp [h1]
    rw [validateProjectPath_eq, hany]
    simp
  · intro hex hdir hind
    have hany : indicators.any
        (fun ind => fs.pathExists (joinPath (normalize p) ind)) = false := by
      rw [List.any_eq_false]
      intro ind hmem
      simp [hind ind hmem]
    rw [validateProjectPath_eq, hany]
    simp
  · intro habs hcanon hdots hnul hblocked hallow hex hdir hmark
    obtain ⟨t, rfl⟩ : ∃ t, p = '/' :: t := by
      cases p with
      | nil => simp [isAbsolute] at habs
      | cons c t =>
        have : c = '/' := by simpa [isAbsolute] using habs
        exact ⟨t, by rw [this]⟩
    have hjne : jsTrim ('/' :: t) ≠ [] :=
      jsTrim_ne_nil (by simp : '/' ∈ ('/' :: t : Str)) (by decide)
    have hA : (decide (('/' :: t : Str) = []) || decide (jsTrim ('/' :: t) = [])) = false := by
      simp [hjne]
    have hanyb : (BLOCKED_PATHS.any (fun blocked => ('/' :: t : Str) == blocked ||
        strStartsWith ('/' :: t) (blocked ++ ['/']))) = false := by
      rw [List.any_eq_false]
      intro b hb
      obtain ⟨hne, hsw⟩ := hblocked b hb
      simp [hne, hsw]
    have hallowed : isPathAllowed cfg ('/' :: t) = true := by
      rw [isPathAllowed]
      cases hroot : cfg.enableRootAccess with
      | true => rw [if_pos rfl]
      | false =>
        rw [if_neg (by simp)]
        simp only [hcanon]
        rw [List.any_eq_true]
        rcases hallow with h1 | ⟨a, ha, h2⟩
        · rw [hroot] at h1; exact absurd h1 (by simp)
        · refine ⟨a, ha, ?_⟩
          rcases h2 with h3 | h3
          · simp [h3]
          · simp [h3]
    have hmarkany : indicators.any
        (fun ind => fs.pathExists (joinPath ('/' :: t) ind)) = true := by
      rw [List.any_eq_true]
      obtain ⟨ind, hmem, hval⟩ := hmark
      exact ⟨ind, hmem, by simp [hval]⟩
    rw [validateProjectPath_eq]
    simp only [hcanon]
    rw [hA, habs, hdots, hnul, hanyb, hallowed, hex, hdir, hmarkany]
    rfl

theorem validateProjectPath_spec_witness :
    validateProjectPath cfgWs fsWs (str "/ws/proj") = true :=
  (validateProjectPath_spec cfgWs fsWs (str "/ws/proj")).2.2.2 (by decide) (by decide)
    (by decide) (by decide) (by decide) (by decide) (by decide) (by decide) (by decide)

/-! ## Claim C5: port probing -/

theorem findAvailablePortGo_some (startPort : Nat) (net : Net) :
    ∀ (remaining i port : Nat),
      findAvailablePortGo startPort net remaining i = some port →
      ∃ k, k < remaining ∧ port = startPort + i + k ∧
        net (startPort + i + k) ≠ some true ∧
        ∀ j, j < k → net (startPort + i + j) = some true := by
  intro remaining
  induction remaining with
  | zero => intro i port h; simp [findAvailablePortGo] at h
  | succ remaining ih =>
    intro i port h
    rw [findAvailablePortGo] at h
    cases hnet : net (startPort + i) with
    | none =>
      rw [hnet] at h
      have hport : port = startPort + i := by
        have : some (startPort + i) = some port := h
        simpa using this.symm
      refine ⟨0, by omega, by omega, ?_, by omega⟩
      rw [Nat.add_zero, hnet]
      simp
    | some ok =>
      cases ok with
      | true =>
        rw [hnet] at h
        obtain ⟨k, hk, hport, hnot, hall⟩ := ih (i + 1) port h
        refine ⟨k + 1, by omega, by omega, ?_, ?_⟩
        · have : startPort + i + (k + 1) = startPort + (i + 1) + k := by omega
          rw [this]; exact hnot
        · intro j hj
          cases j with
          | zero => simpa using hnet
          | succ j =>
            have : startPort + i + (j + 1) = startPort + (i + 1) + j := by omega
            rw [this]
            exact hall j (by omega)
      | false =>
        rw [hnet] at h
        have hport : port = startPort + i := by
          have : some (startPort + i) = some port := h
          simpa using this.symm
        refine ⟨0, by omega, by omega, ?_, by omega⟩
        rw [Nat.add_zero, hnet]
        simp

theorem findAvailablePortGo_none (startPort : Nat) (net : Net) :
    ∀ (remaining i : Nat),
      (∀ k, k < remaining → net (startPort + i + k) = some true) →
      findAvailablePortGo startPort net remaining i = none := by
  intro remaining
  induction remaining with
  | zero => intro i _; rfl
  | succ remaining ih =>
    intro i hall
    rw [findAvailablePortGo]
    have h0 : net (startPort + i) = some true := by
      have := hall 0 (by omega)
      simpa using this
    rw [h0]
    refine ih (i + 1) ?_
    intro k hk
    have : startPort + (i + 1) + k = startPort + i + (k + 1) := by omega
    rw [this]
    exact hall (k + 1) (by omega)

/-- C5 (counterexample): with every probed port answering (a non-OK
response), `findAvailablePort` still returns the first port — a port on
which a listener answers the probe and which would respond to an
immediate subsequent probe — instead of failing. -/
theorem findAvailablePort_counterexample :
    findAvailablePort 3100 100 netBusyNotOk = some 3100 ∧
      netBusyNotOk 3100 ≠ none := by
  refine ⟨by decide, by decide⟩

/-- C5 (amended): `findAvailablePort` probes `start, start+1, …` in
order and returns the first probed port whose probe either throws
(connection refused / timeout) or completes with a non-OK response; it
fails with the no-ports error only when all `maxAttempts` probed ports
answer OK, and conversely. -/
theorem findAvailablePort_spec (startPort maxAttempts : Nat) (net : Net) :
    (∀ port, findAvailablePort startPort maxAttempts net = some port →
      ∃ i, i < maxAttempts ∧ port = startPort + i ∧
        net (startPort + i) ≠ some true ∧
        ∀ j, j < i → net (startPort + j) = some true) ∧
    ((∀ i, i < maxAttempts → net (startPort + i) = some true) →
      findAvailablePort startPort maxAttempts net = none) := by
  constructor
  · intro port h
    obtain ⟨k, hk, hport, hnot, hall⟩ :=
      findAvailablePortGo_some startPort net maxAttempts 0 port h
    exact ⟨k, hk, by omega, by simpa using hnot, fun j hj => by simpa using hall j hj⟩
  · intro hall
    exact findAvailablePortGo_none startPort net maxAttempts 0
      (fun k hk => by simpa using hall k hk)

/-- C5 (witness): the amended exhaustion clause at a network where
every port answers OK. -/
theorem findAvailablePort_spec_witness :
    findAvailablePort 3000 5 netAllOk = none :=
  (findAvailablePort_spec 3000 5 netAllOk).2 (fun i _ => rfl)

/-! ## Claim C6: idempotent launch -/

/-- C6 (counterexample): when the spawned process never passes the
health wait, the first `launchOnProject` call spawns a process, fails
with a timeout, and leaves nothing registered; a second call for the
same path spawns another process, so two processes are spawned in
total. -/
theorem launchOnProject_counterexample :
    ((launchOnProject wTimeout (str "/ws/proj")
        (launchOnProject wTimeout (str "/ws/proj") emptyLaunchState).2).2).spawnCount = 2 := by
  decide

/-- C6 (amended): when the first `launchOnProject` call for a path
succeeds, a second call in succession returns the identical result
without touching the state — in particular the same instance id and no
further spawn — and the first call spawned at most one process. -/
theorem launchOnProject_idempotent (w : LaunchWorld) (p : Str) (st : LaunchState)
    (hsucc : ((launchOnProject w p st).1).error = none) :
    launchOnProject w p (launchOnProject w p st).2 = launchOnProject w p st ∧
      ((launchOnProject w p st).2).spawnCount ≤ st.spawnCount + 1 := by
  by_cases hreg : st.registry.contains (str "project-" ++ basename p) = true
  · have h1 : launchOnProject w p st =
        ({ instanceId := str "project-" ++ basename p, error := none }, st) := by
      rw [launchOnProject, if_pos hreg]
    rw [h1]
    constructor
    · rw [launchOnProject, if_pos hreg]
    · simp
  · cases hd : w.discovered with
    | some eid =>
      by_cases heid : st.registry.contains eid = true
      · have heidm : eid ∈ st.registry := by simpa using heid
        have h1 : launchOnProject w p st = ({ instanceId := eid, error := none }, st) := by
          rw [launchOnProject, if_neg hreg]
          simp [findExistingOpenCodeForPath, hd, heidm]
        rw [h1]
        constructor
        · rw [launchOnProject, if_neg hreg]
          simp [findExistingOpenCodeForPath, hd, heidm]
        · simp
      · have heidm : eid ∉ st.registry := by simpa using heid
        have h1 : launchOnProject w p st = ({ instanceId := eid, error := none },
            { st with registry := st.registry ++ [eid] }) := by
          rw [launchOnProject, if_neg hreg]
          simp [findExistingOpenCodeForPath, hd, heidm]
        rw [h1]
        by_cases hsame : eid = str "project-" ++ basename p
        · have hc : (({ st with registry := st.registry ++ [eid] } :
              LaunchState).registry.contains (str "project-" ++ basename p)) = true := by
            simp [hsame]
          constructor
          · rw [launchOnProject, if_pos hc, hsame]
          · simp
        · have hc : ¬((({ st with registry := st.registry ++ [eid] } :
              LaunchState).registry.contains (str "project-" ++ basename p)) = true) := by
            intro hc
            have hmem : str "project-" ++ basename p ∈ st.registry ++ [eid] := by
              simpa using hc
            rcases List.mem_append.mp hmem with hc2 | hc2
            · have hni : str "project-" ++ basename p ∉ st.registry := by simpa using hreg
              exact hni hc2
            · have heq : str "project-" ++ basename p = eid := by simpa using hc2
              exact hsame heq.symm
          have hc2m : eid ∈ st.registry ++ [eid] := by simp
          constructor
          · rw [launchOnProject, if_neg hc]
            simp [findExistingOpenCodeForPath, hd, hc2m]
          · simp
    | none =>
      cases hport : w.availablePort with
      | none =>
        exfalso
        rw [launchOnProject, if_neg hreg] at hsucc
        simp [findExistingOpenCodeForPath, hd, hport] at hsucc
      | some port =>
        cases hvalid : w.validPath with
        | false =>
          exfalso
          rw [launchOnProject, if_neg hreg] at hsucc
          simp [findExistingOpenCodeForPath, hd, hport, hvalid] at hsucc
        | true =>
          cases hhealth : w.healthyAfterSpawn with
          | false =>
            exfalso
            rw [launchOnProject, if_neg hreg] at hsucc
            simp [findExistingOpenCodeForPath, hd, hport, hvalid, hhealth] at hsucc
          | true =>
            have h1 : launchOnProject w p st =
                ({ instanceId := str "project-" ++ basename p, error := none },
                 { registry := st.registry ++ [str "project-" ++ basename p],
                   spawnCount := st.spawnCount + 1 }) := by
              rw [launchOnProject, if_neg hreg]
              simp [findExistingOpenCodeForPath, hd, hport, hvalid, hhealth]
            rw [h1]
            constructor
            · rw [launchOnProject, if_pos (by simp)]
            · simp

/-- C6 (witness): the amended idempotence at a healthy launch from an
empty registry. -/
theorem launchOnProject_idempotent_witness :
    launchOnProject wHealthy (str "/ws/proj")
        (launchOnProject wHealthy (str "/ws/proj") emptyLaunchState).2 =
      launchOnProject wHealthy (str "/ws/proj") emptyLaunchState ∧
      ((launchOnProject wHealthy (str "/ws/proj") emptyLaunchState).2).spawnCount ≤
        emptyLaunchState.spawnCount + 1 :=
  launchOnProject_idempotent wHealthy (str "/ws/proj") emptyLaunchState (by decide)

/-! ## Claim C9: instance identity depends only on the leaf name -/

/-- C9: the instance id `launchOnProject` derives depends only on the
final path segment, so for two distinct paths with the same leaf a
successful launch for the first makes a launch for the second return
that same registered instance id — for every environment `w2`, hence
without validating the second path or spawning anything, and with the
state unchanged. -/
theorem launchOnProject_leaf_identity (w : LaunchWorld) (p1 p2 : Str) (st : LaunchState)
    (hbase : basename p1 = basename p2) (hne : p1 ≠ p2)
    (hid : (launchOnProject w p1 st).1 =
      { instanceId := str "project-" ++ basename p1, error := none }) :
    (str "project-" ++ basename p1 = str "project-" ++ basename p2) ∧
    ∀ w2, launchOnProject w2 p2 (launchOnProject w p1 st).2 =
      ({ instanceId := str "project-" ++ basename p1, error := none },
        (launchOnProject w p1 st).2) := by
  refine ⟨by rw [hbase], ?_⟩
  intro w2
  have hmem : str "project-" ++ basename p1 ∈ ((launchOnProject w p1 st).2).registry := by
    by_cases hreg : st.registry.contains (str "project-" ++ basename p1) = true
    · have h1 : launchOnProject w p1 st =
          ({ instanceId := str "project-" ++ basename p1, error := none }, st) := by
        rw [launchOnProject, if_pos hreg]
      rw [h1]
      simpa using hreg
    · cases hd : w.discovered with
      | some eid =>
        by_cases heid : st.registry.contains eid = true
        · have heidm : eid ∈ st.registry := by simpa using heid
          have h1 : launchOnProject w p1 st = ({ instanceId := eid, error := none }, st) := by
            rw [launchOnProject, if_neg hreg]
            simp [findExistingOpenCodeForPath, hd, heidm]
          rw [h1] at hid ⊢
          have heq : eid = str "project-" ++ basename p1 := by
            simpa [LaunchResult.mk.injEq] using hid
          rw [← heq]
          exact heidm
        · have heidm : eid ∉ st.registry := by simpa using heid
          have h1 : launchOnProject w p1 st = ({ instanceId := eid, error := none },
              { st with registry := st.registry ++ [eid] }) := by
            rw [launchOnProject, if_neg hreg]
            simp [findExistingOpenCodeForPath, hd, heidm]
          rw [h1] at hid ⊢
          have heq : eid = str "project-" ++ basename p1 := by
            simpa [LaunchResult.mk.injEq] using hid
          rw [← heq]
          simp
      | none =>
        cases hport : w.availablePort with
        | none =>
          exfalso
          rw [launchOnProject, if_neg hreg] at hid
          simp [findExistingOpenCodeForPath, hd, hport, LaunchResult.mk.injEq] at hid
        | some port =>
          cases hvalid : w.validPath with
          | false =>
            exfalso
            rw [launchOnProject, if_neg hreg] at hid
            simp [findExistingOpenCodeForPath, hd, hport, hvalid, LaunchResult.mk.injEq] at hid
          | true =>
            cases hhealth : w.healthyAfterSpawn with
            | false =>
              exfalso
              rw [launchOnProject, if_neg hreg] at hid
              simp [findExistingOpenCodeForPath, hd, hport, hvalid, hhealth,
                LaunchResult.mk.injEq] at hid
            | true =>
              have h1 : launchOnProject w p1 st =
                  ({ instanceId := str "project-" ++ basename p1, error := none },
                   { registry := st.registry ++ [str "project-" ++ basename p1],
                     spawnCount := st.spawnCount + 1 }) := by
                rw [launchOnProject, if_neg hreg]
                simp [findExistingOpenCodeForPath, hd, hport, hvalid, hhealth]
              rw [h1]
              simp
  have hc : (((launchOnProject w p1 st).2).registry.contains
      (str "project-" ++ basename p2)) = true := by
    rw [← hbase]
    simpa using hmem
  rw [launchOnProject, if_pos hc, ← hbase]

/-- C9 (witness): after a healthy launch for `/a/proj`, launching
`/b/proj` (same leaf `proj`) in a hostile environment (never-healthy
spawns) still returns `project-proj` and leaves the state unchanged. -/
theorem launchOnProject_leaf_identity_witness :
    launchOnProject wTimeout (str "/b/proj")
        (launchOnProject wHealthy (str "/a/proj") emptyLaunchState).2 =
      ({ instanceId := str "project-" ++ basename (str "/a/proj"), error := none },
        (launchOnProject wHealthy (str "/a/proj") emptyLaunchState).2) :=
  (launchOnProject_leaf_identity wHealthy (str "/a/proj") (str "/b/proj") emptyLaunchState
    (by decide) (by decide) (by decide)).2 wTimeout

/-! ## Claim C10: sendMessage leaves persisted state intact on failure -/

/-- C10: for a user whose stored record exists and needs no migration,
every failing `SessionManager.sendMessage` (no active session, or a
throwing backend prompt call) leaves the persisted storage exactly as it
was; the record is written back only on the success path. -/
theorem smSendMessage_atomic (defaultInstanceId : Str) (now : Nat) (promptThrows : Bool)
    (storage : List (Str × UserSessionState)) (userId : Nat) (state : UserSessionState)
    (hget : alGet storage (userKey userId) = some state)
    (hmig : needsMigration state = false)
    (hfail : ((smSendMessage defaultInstanceId now promptThrows storage userId).1).1 = false) :
    (smSendMessage defaultInstanceId now promptThrows storage userId).2 = storage := by
  have hgoc : getOrCreateUserState defaultInstanceId now userId 0 storage = (state, storage) := by
    rw [getOrCreateUserState, hget]
    simp [hmig]
  rw [smSendMessage, hgoc] at hfail ⊢
  by_cases hcur : (strFalsy state.currentSessionId || strFalsy state.currentInstanceId) = true
  · rw [if_pos hcur]
  · rw [if_neg hcur] at hfail ⊢
    cases hthrow : promptThrows with
    | true => rw [if_pos rfl]
    | false =>
      exfalso
      rw [hthrow] at hfail
      simp at hfail

/-- C10 (witness): a failing send (no active session) for the idle user
leaves the concrete storage untouched. -/
theorem smSendMessage_atomic_witness :
    (smSendMessage (str "default") 5 false idleStorage 7).2 = idleStorage :=
  smSendMessage_atomic (str "default") 5 false idleStorage 7 idleUserState
    (by decide) (by decide) (by decide)

end OcBot
